import Mathlib

/-!
# Verification of the conversation-synthesis core of `src/main.py`

This file shallowly embeds the conversation engine of the repository's
`src/main.py` (skill overlap / alignment computation, fact extraction,
conversation seeding, reseed detection, legacy-role migration, the LLM
answer cleaner, and the four conversation endpoints) and proves or refutes
the frozen claims about it.

Modelling conventions:

* Manager / employee records are the dictionaries produced by
  `utils/database.py` (`serialize_project_manager` / `serialize_employee`):
  every key is always present, but a value may be SQL `NULL` (Python
  `None`).  An `Option`-typed field is `none` exactly when the value is
  `None`; consequently `d['k']` never raises `KeyError` and `d.get('k',
  default)` never returns the default (those defaults are dead code).
* Python `f"{x}"` formatting of a possibly-`None` string is `fmtPy`.
* Python exceptions are modelled with `Except PyErr`; an operation that the
  source wraps in `try/except` is modelled by matching on the result.
* The persisted conversation store (`conversations.json`) is an ordered
  association list; a handler returns the response, the persisted store
  after the request, and whether `_save_conversations` ran.
* Machine floats: `_compute_alignment` divides two Python ints with `/`
  (an IEEE-754 binary64, correctly rounded) and multiplies by `100`
  (correctly rounded).  This is modelled exactly by `roundDoubleN`:
  round-to-nearest, ties-to-even, 53-bit significand, subnormal quantum
  `2^(-1074)`, on dyadic rationals represented as `Nat` pairs.
-/

namespace Main

/-! ## Python-style character and string primitives -/

/-- Python `str.lower` restricted to ASCII (all inputs in this development
are ASCII; `chr(c+32)` for `'A'..'Z'`, code points 65–90). -/
def pyLowerChar (c : Char) : Char :=
  if 65 ≤ c.toNat ∧ c.toNat ≤ 90 then Char.ofNat (c.toNat + 32) else c

/-- Whitespace class of Python's `str.strip` / `\s` (ASCII part):
space, `\t`, `\n`, `\r`, `\x0b`, `\x0c`. -/
def pySpace (c : Char) : Bool :=
  c.toNat = 32 || c.toNat = 9 || c.toNat = 10 || c.toNat = 13 ||
    c.toNat = 11 || c.toNat = 12

/-- ASCII decimal digit (`\d` on the inputs of this development),
code points 48–57. -/
def pyDigit (c : Char) : Bool :=
  48 ≤ c.toNat && c.toNat ≤ 57

def pyLower (s : String) : String := ⟨s.data.map pyLowerChar⟩

/-- Python slice `s[:n]` (by code point, as in CPython). -/
def pyTake (n : Nat) (s : String) : String := ⟨s.data.take n⟩

/-- Python `s.strip()` for the ASCII whitespace class. -/
def pyStrip (s : String) : String :=
  ⟨((s.data.dropWhile pySpace).reverse.dropWhile pySpace).reverse⟩

/-- `listHasPrefix pat l` : `pat` is a prefix of `l`. -/
def listHasPrefix : List Char → List Char → Bool
  | [], _ => true
  | _ :: _, [] => false
  | a :: as, b :: bs => a = b && listHasPrefix as bs

/-- `listHasSub pat l` : `pat` occurs contiguously in `l` (Python `in`). -/
def listHasSub (pat : List Char) : List Char → Bool
  | [] => listHasPrefix pat []
  | x :: xs => listHasPrefix pat (x :: xs) || listHasSub pat xs

/-- Python `pat in s` for strings. -/
def pyIn (pat s : String) : Bool := listHasSub pat.data s.data

/-- Python `s.startswith(pat)`. -/
def pyStartsWith (pat s : String) : Bool := listHasPrefix pat.data s.data

/-- Python `', '.join(l)`. -/
def joinComma : List String → String
  | [] => ""
  | [s] => s
  | s :: rest => s ++ ", " ++ joinComma rest

/-- Python `s or default` for strings (empty string is falsy). -/
def orD (s d : String) : String := if s = "" then d else s

/-- Python `f"{v}"` where `v` is a string or `None`. -/
def fmtPy (v : Option String) : String := v.getD "None"

/-- Python `s.split()` (split on whitespace runs, no empty fields). -/
def pyWordsAux : List Char → List Char → List (List Char)
  | [], acc => if acc.isEmpty then [] else [acc.reverse]
  | c :: cs, acc =>
      if pySpace c then
        if acc.isEmpty then pyWordsAux cs [] else acc.reverse :: pyWordsAux cs []
      else pyWordsAux cs (c :: acc)

def pyWords (s : String) : List String := (pyWordsAux s.data []).map List.asString

/-- Python `s.split('.')` (keeps empty fields). -/
def splitDot : List Char → List (List Char)
  | [] => [[]]
  | c :: cs =>
      let r := splitDot cs
      if c = '.' then [] :: r
      else
        match r with
        | h :: t => (c :: h) :: t
        | [] => [[c]]

/-- Python `s.split(' - ')[0]`: everything before the first `" - "`. -/
def splitDashFirst : List Char → List Char
  | [] => []
  | c :: cs =>
      if listHasPrefix [' ', '-', ' '] (c :: cs) then []
      else c :: splitDashFirst cs

/-! ## Data model: messages, records, store -/

/-- A conversation message `{role, speaker, text}` as written by
`src/main.py`; `speaker` may be JSON `null` (the manager's name column can
be SQL `NULL`). -/
structure Message where
  role : String
  speaker : Option String
  text : String
deriving DecidableEq, Repr

/-- A project-manager record as returned by `fetch_project_manager`
(`serialize_project_manager`): all keys present, text values nullable,
`required_skills` always a list. Fields not read by the conversation core
are omitted. -/
structure Manager where
  name : Option String
  active_project : Option String
  project_summary : Option String
  required_skills : List String
deriving DecidableEq, Repr

/-- An employee record as returned by `fetch_employee`
(`serialize_employee`): all keys present, text values nullable, `skills`
always a list, `metrics` an insertion-ordered dict whose values are
modelled by their `str()` display form. -/
structure Employee where
  name : Option String
  title : Option String
  experience_years : Option Int
  education : Option String
  location : Option String
  skills : List String
  metrics : List (String × String)
  summary : Option String
deriving DecidableEq, Repr

deriving instance DecidableEq for Except

/-- Python exception kinds that the modelled code can raise. -/
inductive PyErr where
  | typeError
  | attributeError
  | keyError
  | indexError
deriving DecidableEq, Repr

def PyErr.pyName : PyErr → String
  | .typeError => "TypeError"
  | .attributeError => "AttributeError"
  | .keyError => "KeyError"
  | .indexError => "IndexError"

/-- The persisted conversation map (`artifacts/conversations.json`),
insertion-ordered like a Python dict. -/
abbrev Store := List (String × List Message)

def storeGet (s : Store) (k : String) : Option (List Message) :=
  (s.find? (fun kv => kv.1 = k)).map (fun kv => kv.2)

def storeSet : Store → String → List Message → Store
  | [], k, v => [(k, v)]
  | (k', v') :: rest, k, v =>
      if k' = k then (k, v) :: rest else (k', v') :: storeSet rest k v

/-- `_conversation_key`. -/
def convKey (manager_id employee_id : Int) : String :=
  "pm" ++ toString manager_id ++ "-emp" ++ toString employee_id

/-! ## `_skill_overlap` (4.1 ComputeOverlap) -/

/-- Sorting used to model Python `sorted` on strings (lexicographic by
code point, which is `String`'s linear order). -/
def pySorted (l : List String) : List String :=
  l.insertionSort (· ≤ ·)

/-- `_skill_overlap(required, employee_skills)`: sorted intersection and
sorted difference of the two skill sets. -/
def skill_overlap (required employee_skills : List String) : List String × List String :=
  let required_set := required.dedup
  let overlap := pySorted (required_set.filter (fun s => employee_skills.contains s))
  let gaps := pySorted (required_set.filter (fun s => ¬ employee_skills.contains s))
  (overlap, gaps)

/-! ## IEEE-754 binary64 rounding, and `_compute_alignment`

`_compute_alignment` evaluates `int((overlap / len(required_set)) * 100)`
where `/` is CPython's correctly-rounded int/int true division producing a
binary64, and `* 100` is a correctly-rounded binary64 multiplication.  A
nonnegative binary64 is represented exactly as a dyadic pair `(m, s)`
meaning `m / 2^s`; rounding a nonnegative rational `a / b` to binary64 is
round-to-nearest, ties-to-even at 53 significant bits, with the subnormal
quantum `2^(-1074)` (exponents are unbounded above, which is irrelevant at
the magnitudes reached here). -/

/-- Fuel-based `⌊log₂ n⌋` (`0` for `n = 0`), kernel-reducible. -/
def log2Aux : Nat → Nat → Nat
  | 0, _ => 0
  | fuel + 1, n => if n < 2 then 0 else log2Aux fuel (n / 2) + 1

def log2N (n : Nat) : Nat := log2Aux n n

/-- Round `num/den` (`den ≠ 0`) to the nearest integer, ties to even. -/
def rne (num den : Nat) : Nat :=
  let q := num / den
  let r := num % den
  if 2 * r < den then q
  else if den < 2 * r then q + 1
  else if q % 2 = 0 then q else q + 1

/-- `⌊log₂ (a/b)⌋` for `1 ≤ a`, `1 ≤ b`. -/
def qfloorLog2 (a b : Nat) : Int :=
  let e0 : Int := (log2N a : Int) - (log2N b : Int)
  if b * 2 ^ e0.toNat ≤ a * 2 ^ (-e0).toNat then e0 else e0 - 1

/-- Nearest binary64 to the nonnegative rational `a/b` (`b ≠ 0`), as a
dyadic pair `(m, s)` whose value is `m / 2^s`.  The rounding scale is
`2^(e-52)` for `e = ⌊log₂ (a/b)⌋`, clamped to the subnormal quantum
`2^(-1074)`. -/
def roundDoubleN (a b : Nat) : Nat × Nat :=
  let e := qfloorLog2 a b
  let s : Int := min (52 - e) 1074
  if 0 ≤ s then (rne (a * 2 ^ s.toNat) b, s.toNat)
  else (rne a (b * 2 ^ (-s).toNat) * 2 ^ (-s).toNat, 0)

/-- `_compute_alignment(required, employee_skills)`:
`int((overlap / len(required_set)) * 100)` in binary64 arithmetic
(`int` truncates toward zero, i.e. floor of the nonnegative dyadic),
`0` for an empty `required`. -/
def compute_alignment (required employee_skills : List String) : Int :=
  if required.isEmpty then 0
  else
    let required_set := required.dedup
    let overlap := (required_set.filter (fun s => employee_skills.contains s)).length
    let x := roundDoubleN overlap required_set.length
    let y := roundDoubleN (100 * x.1) (2 ^ x.2)
    (y.1 / 2 ^ y.2 : Nat)

/-! ### Bounds for the rounding pipeline -/

theorem log2Aux_spec (fuel : Nat) : ∀ n, 1 ≤ n → n ≤ fuel →
    2 ^ log2Aux fuel n ≤ n ∧ n < 2 ^ (log2Aux fuel n + 1) := by
  induction fuel with
  | zero => intro n h1 h2; omega
  | succ fuel ih =>
    intro n h1 h2
    unfold log2Aux
    by_cases hn : n < 2
    · simp only [hn, if_true]; simp; omega
    · simp only [hn, if_false]
      have hd1 : 1 ≤ n / 2 := by omega
      have hd2 : n / 2 ≤ fuel := by omega
      obtain ⟨hl, hr⟩ := ih (n / 2) hd1 hd2
      constructor
      · have : 2 ^ (log2Aux fuel (n / 2) + 1) = 2 * 2 ^ log2Aux fuel (n / 2) := by ring
        rw [this]; omega
      · have : 2 ^ (log2Aux fuel (n / 2) + 1 + 1) = 2 * 2 ^ (log2Aux fuel (n / 2) + 1) := by
          ring
        rw [this]; omega

theorem log2N_spec {n : Nat} (h : 1 ≤ n) :
    2 ^ log2N n ≤ n ∧ n < 2 ^ (log2N n + 1) :=
  log2Aux_spec n n h le_rfl

theorem rne_le_of_le {n d k : Nat} (hd : d ≠ 0) (h : n ≤ d * k) : rne n d ≤ k := by
  have hq : n / d ≤ k := Nat.div_le_of_le_mul h
  have hmod := Nat.div_add_mod n d
  have hrlt : n % d < d := Nat.mod_lt n (Nat.pos_of_ne_zero hd)
  have hsucc : 1 ≤ n % d → n / d + 1 ≤ k := by
    intro hr1
    rcases Nat.lt_or_ge (n / d) k with hlt | hge
    · omega
    · exfalso
      have hqk : n / d = k := le_antisymm hq hge
      have hmul : d * (n / d) = d * k := by rw [hqk]
      omega
  simp only [rne]
  split
  · exact hq
  · split
    · exact hsucc (by omega)
    · split
      · exact hq
      · exact hsucc (by omega)

theorem qfloorLog2_le_seven {a b : Nat} (hb : 1 ≤ b) (h : a ≤ 100 * b) :
    qfloorLog2 a b ≤ 7 := by
  have he0 : (log2N a : Int) - (log2N b : Int) ≤ 7 := by
    rcases Nat.eq_zero_or_pos a with ha0 | ha1
    · subst ha0
      have hz : log2N 0 = 0 := rfl
      rw [hz]
      omega
    · obtain ⟨hal, _⟩ := log2N_spec ha1
      obtain ⟨_, hbr⟩ := log2N_spec hb
      -- 2 ^ log2N a ≤ a ≤ 100 b < 100 * 2 ^ (log2N b + 1) ≤ 2 ^ (log2N b + 8)
      have hkey : 2 ^ log2N a < 2 ^ (log2N b + 8) := by
        have h8 : 128 * 2 ^ (log2N b + 1) = 2 ^ (log2N b + 8) := by ring
        omega
      have := (Nat.pow_lt_pow_iff_right (by norm_num : 1 < 2)).mp hkey
      omega
  simp only [qfloorLog2]
  split <;> omega

theorem roundDoubleN_le_mul {a b k : Nat} (hb : 1 ≤ b) (hk : k ≤ 100) (h : a ≤ k * b) :
    (roundDoubleN a b).1 ≤ k * 2 ^ (roundDoubleN a b).2 := by
  have hbig : a ≤ 100 * b := le_trans h (Nat.mul_le_mul_right b hk)
  have he : qfloorLog2 a b ≤ 7 := qfloorLog2_le_seven hb hbig
  have hs : (0 : Int) ≤ min (52 - qfloorLog2 a b) 1074 := by omega
  have hbne : b ≠ 0 := by omega
  simp only [roundDoubleN]
  rw [if_pos hs]
  refine rne_le_of_le hbne ?_
  calc a * 2 ^ (min (52 - qfloorLog2 a b) 1074).toNat
      ≤ (k * b) * 2 ^ (min (52 - qfloorLog2 a b) 1074).toNat := Nat.mul_le_mul_right _ h
  _ = b * (k * 2 ^ (min (52 - qfloorLog2 a b) 1074).toNat) := by ring

/-- The binary64 evaluation of the alignment always lands in `0..100`. -/
theorem compute_alignment_mem (required employee_skills : List String) :
    0 ≤ compute_alignment required employee_skills ∧
      compute_alignment required employee_skills ≤ 100 := by
  simp only [compute_alignment]
  split
  · omega
  · rename_i hne
    refine ⟨Int.natCast_nonneg _, ?_⟩
    have hrne : required ≠ [] := by
      intro hcon; subst hcon; exact hne rfl
    have hdne : required.dedup ≠ [] := fun hcon => hrne ((List.dedup_eq_nil required).mp hcon)
    have hr1 : 1 ≤ required.dedup.length := List.length_pos.mpr hdne
    have ho : (required.dedup.filter (fun s => employee_skills.contains s)).length
        ≤ required.dedup.length := List.length_filter_le _ _
    set o := (required.dedup.filter (fun s => employee_skills.contains s)).length with ho_def
    set r := required.dedup.length with hr_def
    have h1 : (roundDoubleN o r).1 ≤ 1 * 2 ^ (roundDoubleN o r).2 :=
      roundDoubleN_le_mul hr1 (by norm_num) (by omega)
    have h2 : (roundDoubleN (100 * (roundDoubleN o r).1) (2 ^ (roundDoubleN o r).2)).1
        ≤ 100 * 2 ^ (roundDoubleN (100 * (roundDoubleN o r).1) (2 ^ (roundDoubleN o r).2)).2 :=
      roundDoubleN_le_mul Nat.one_le_two_pow le_rfl (by omega)
    have hdiv : (roundDoubleN (100 * (roundDoubleN o r).1) (2 ^ (roundDoubleN o r).2)).1
          / 2 ^ (roundDoubleN (100 * (roundDoubleN o r).1) (2 ^ (roundDoubleN o r).2)).2
        ≤ 100 := by
      refine Nat.div_le_of_le_mul ?_
      calc (roundDoubleN (100 * (roundDoubleN o r).1) (2 ^ (roundDoubleN o r).2)).1
          ≤ 100 * 2 ^ (roundDoubleN (100 * (roundDoubleN o r).1)
              (2 ^ (roundDoubleN o r).2)).2 := h2
      _ = 2 ^ (roundDoubleN (100 * (roundDoubleN o r).1)
            (2 ^ (roundDoubleN o r).2)).2 * 100 := Nat.mul_comm _ _
    exact_mod_cast hdiv

/-! ## `_seed_conversation` (4.4 Seed) and its call-site fallbacks -/

/-- `_seed_conversation(manager, employee)`.  The only statements that can
raise are in `hr_view` / `next_step`: `education.split(' - ')` raises
`AttributeError` when `education` is `None`, and `summary[:70]` raises
`TypeError` when `summary` is `None` (evaluated in that order); every
other field access tolerates `None`. -/
def seed_conversation (manager : Manager) (employee : Employee) :
    Except PyErr (List Message) :=
  let manager_name := manager.name
  let required := manager.required_skills
  let overlap_info :=
    if required.isEmpty then ([], []) else skill_overlap required employee.skills
  let fm := match employee.metrics with
    | [] => ("Metric", "N/A")
    | kv :: _ => kv
  let experience_years : Int := employee.experience_years.getD 0
  let overlap_txt :=
    if required.isEmpty then "No explicit required skills listed yet."
    else "Overlap: " ++ joinComma overlap_info.1 ++ ". Gaps: " ++
      orD (joinComma overlap_info.2) "None"
  let intro := "Reviewing " ++ fmtPy employee.name ++ " for project '" ++
    fmtPy manager.active_project ++ "': " ++ toString experience_years ++
    " yrs experience; " ++ fm.1 ++ "=" ++ fm.2 ++ "."
  let alignment_pct : Int :=
    if required.isEmpty then 0 else compute_alignment required employee.skills
  let project_eval := "Project needs: " ++
    (if required.isEmpty then "TBD" else joinComma (required.take 4)) ++
    ". Alignment " ++ toString alignment_pct ++ "%. " ++ overlap_txt
  match employee.education, employee.summary with
  | none, _ => .error .attributeError
  | some _, none => .error .typeError
  | some edu, some summ =>
    let eduFirst : String := ⟨splitDashFirst edu.data⟩
    let hr_view := "HR perspective: " ++ fmtPy employee.name ++
      " shows strong background in " ++ eduFirst ++ "; summary: " ++
      pyTake 70 summ ++ "..."
    let next_step := "Considering task alignment leveraging " ++ eduFirst ++
      " and strengths in " ++ joinComma (employee.skills.take 2) ++ "."
    .ok [⟨"manager", manager_name, intro⟩,
         ⟨"manager", manager_name, project_eval⟩,
         ⟨"hr", some "HR Representative", hr_view⟩,
         ⟨"manager", manager_name, next_step⟩]

/-- A seeding call site wrapped in `try/except Exception as e` that
degrades to the one-message fallback naming the exception class
(`get_conversation`, `continue_conversation`, `new_conversation`). -/
def seedWithFallback (manager : Manager) (employee : Employee) : List Message :=
  match seed_conversation manager employee with
  | .ok msgs => msgs
  | .error e => [⟨"manager", manager.name,
      "Conversation seed unavailable due to data error: " ++ e.pyName ++ "."⟩]

/-- The lazy seeding site inside `add_comment`: the same `try/except`, but
its fallback text is fixed and omits the exception kind. -/
def seedWithFallbackPlain (manager : Manager) (employee : Employee) : List Message :=
  match seed_conversation manager employee with
  | .ok msgs => msgs
  | .error _ => [⟨"manager", manager.name,
      "Conversation seed unavailable due to data error."⟩]

/-! ## `_conversation_needs_reseed` and `_migrate_legacy_roles` (4.5) -/

/-- `_conversation_needs_reseed(manager, employee, messages)`.
`not manager` / `not employee` is `None`-ness here: a present record dict
from `serialize_*` is never empty, so Python dict truthiness coincides. -/
def conversation_needs_reseed (manager : Option Manager) (employee : Option Employee)
    (messages : List Message) : Bool :=
  match manager, employee, messages with
  | some _, some emp, first :: rest =>
    match emp.name with
    | none => false
    | some expected_name =>
      if expected_name = "" then false
      else if ¬ pyIn ("Reviewing " ++ expected_name) first.text then true
      else (first :: rest).any (fun m =>
        pyStartsWith "tech lead" (pyLower (m.speaker.getD "")) ||
        m.role = "lead" || m.role = "techlead")
  | _, _, _ => false

/-- `_migrate_legacy_roles(messages)` (in-place in the source; functional
here). -/
def migrate_legacy_roles (messages : List Message) : List Message :=
  messages.map (fun m =>
    if pyStartsWith "tech lead" (pyLower (m.speaker.getD "")) ||
        m.role = "lead" || m.role = "techlead"
    then { m with role := "hr", speaker := some "HR Representative" } else m)

/-! ## `_extract_employee_facts` (4.2): the hobby-count regex

`re.search(r"(?:exactly\s+|has\s+|with\s+)?(\d{1,2})\s+(?:different\s+)?(?:hobbies|personal interests|activities)", text)`
on the lower-cased summary, specialised to a backtracking matcher.  Every
`\s+` is effectively maximal because each literal that can follow starts
with a non-space character. -/

def digitVal (c : Char) : Nat := c.toNat - 48

/-- Match a literal, returning the remainder. -/
def eatLit : List Char → List Char → Option (List Char)
  | [], l => some l
  | _ :: _, [] => none
  | c :: cs, x :: xs => if c = x then eatLit cs xs else none

/-- `\s+` (maximal munch). -/
def eatSpaces1 : List Char → Option (List Char)
  | [] => none
  | c :: cs => if pySpace c then some (cs.dropWhile pySpace) else none

/-- `(?:hobbies|personal interests|activities)`. -/
def kwMatch (l : List Char) : Bool :=
  (eatLit "hobbies".data l).isSome || (eatLit "personal interests".data l).isSome ||
    (eatLit "activities".data l).isSome

/-- `\s+(?:different\s+)?(?:hobbies|personal interests|activities)`. -/
def matchAfterDigits (l : List Char) : Bool :=
  match eatSpaces1 l with
  | none => false
  | some l1 =>
    (match eatLit "different".data l1 with
     | some ld =>
       (match eatSpaces1 ld with
        | some ld2 => kwMatch ld2
        | none => false)
     | none => false) || kwMatch l1

/-- `(\d{1,2})` (greedy, with backtracking) followed by
`matchAfterDigits`; returns the captured number. -/
def digitsThen : List Char → Option Nat
  | [] => none
  | d1 :: rest1 =>
    if pyDigit d1 then
      match rest1 with
      | d2 :: rest2 =>
        if pyDigit d2 && matchAfterDigits rest2 then
          some (digitVal d1 * 10 + digitVal d2)
        else if matchAfterDigits rest1 then some (digitVal d1)
        else none
      | [] => none
    else none

/-- `(?:exactly\s+|has\s+|with\s+)?` (ordered alternatives, then empty)
followed by `digitsThen`: one attempt at a fixed position. -/
def prefThen (w l : List Char) : Option Nat :=
  match eatLit w l with
  | some lw =>
    match eatSpaces1 lw with
    | some lw2 => digitsThen lw2
    | none => none
  | none => none

def matchHobbyAt (l : List Char) : Option Nat :=
  match prefThen "exactly".data l with
  | some v => some v
  | none =>
    match prefThen "has".data l with
    | some v => some v
    | none =>
      match prefThen "with".data l with
      | some v => some v
      | none => digitsThen l

/-- `re.search`: leftmost position with a match. -/
def searchHobby : List Char → Option Nat
  | [] => none
  | c :: cs =>
    match matchHobbyAt (c :: cs) with
    | some v => some v
    | none => searchHobby cs

/-- `_extract_employee_facts(employee)['hobbies_count']`
(`int(match.group(1))` never fails on 1–2 digits). -/
def extract_employee_facts (employee : Employee) : Option Nat :=
  searchHobby (pyLower (employee.summary.getD "")).data

/-! ## `_is_direct_project_question` (4.6a) and `_enhanced_answer_teamlead` (4.7) -/

def is_direct_project_question (comment : String) : Bool :=
  let c := pyStrip (pyLower comment)
  if c = "" then false
  else pyStartsWith "what project" c || pyIn "currently leading" c ||
    (pyIn "leading" c && pyIn "project" c)

/-- `_enhanced_answer_teamlead(comment, employee, manager, overlap_info)`.
`employee.get('name','Employee').split()[0]` raises `AttributeError` when
the name value is `None` and `IndexError` when it has no words. -/
def enhanced_answer_teamlead (comment : String) (employee : Employee) (manager : Manager)
    (overlap_info : List String × List String) : Except PyErr String :=
  let text := pyLower comment
  match employee.name with
  | none => .error .attributeError
  | some nm =>
    match pyWords nm with
    | [] => .error .indexError
    | name :: _ =>
      let project := fmtPy manager.active_project
      let gaps := overlap_info.2
      let overlaps := overlap_info.1
      let facts := extract_employee_facts employee
      if pyIn "hobbies" text && (match facts with | some n => n != 0 | none => false) then
        .ok ("Hobby context: " ++ name ++ " has " ++ toString (facts.getD 0) ++
          " hobbies; maintaining balance while addressing " ++
          orD (joinComma (gaps.take 1)) "no immediate gaps" ++ ".")
      else
        .ok ("Fallback: " ++ name ++ " overlap " ++ orD (joinComma (overlaps.take 2)) "None" ++
          "; gaps " ++ orD (joinComma (gaps.take 2)) "None" ++ " for " ++ project ++ ".")

/-! ## `_llm_generate_discussion_messages` (4.6 step 3): the cleaner -/

/-- One entry of the JSON array returned by the LLM generator
(`_llm_generate_json`), with string-or-absent fields: `none` models a
missing key, handled by `msg.get('role','manager')` and
`(msg.get('text','') or '')`. -/
structure RawMsg where
  role : Option String
  text : Option String
deriving DecidableEq, Repr

/-- The compression applied when the pending comment is a direct project
question: keep the first sentence mentioning the active project or
"project" (else the first sentence), capped at 220 characters.
`pm.get('active_project','').lower()` raises `AttributeError` on a `None`
project (evaluated only when at least one sentence survives). -/
def compressText (pm : Manager) (text : String) : Except PyErr String :=
  let sentences := ((splitDot text.data).map (fun l => pyStrip ⟨l⟩)).filter (fun s => s ≠ "")
  match sentences with
  | [] => .ok text
  | s0 :: _ =>
    match pm.active_project with
    | none => .error .attributeError
    | some ap =>
      let target := (sentences.find? (fun s =>
        pyIn (pyLower ap) (pyLower s) || pyIn "project" (pyLower s))).getD s0
      .ok (pyTake 220 target)

/-- Cleaning of one raw generator entry: role synonym normalisation,
forced speaker, strip, optional compression, 500-char cap; `none` when the
final text is empty (the entry is dropped). -/
def cleanOne (pm : Manager) (pending_comment : Option String) (msg : RawMsg) :
    Except PyErr (Option Message) :=
  let role0 := pyLower (msg.role.getD "manager")
  let role :=
    if role0 = "manager" || role0 = "pm" || role0 = "project_manager" then "manager"
    else if role0 = "hr" || role0 = "human_resources" || role0 = "tech_lead" ||
      role0 = "techlead" || role0 = "lead" then "hr"
    else "manager"
  let speaker := if role = "manager" then pm.name else some "HR Representative"
  let t0 := pyStrip (msg.text.getD "")
  match (match pending_comment with
         | some c => if is_direct_project_question c then compressText pm t0 else .ok t0
         | none => .ok t0 : Except PyErr String) with
  | .error e => .error e
  | .ok t1 =>
    let t := pyTake 500 t1
    .ok (if t = "" then none else some ⟨role, speaker, t⟩)

/-- The cleaning loop over `result[:2]` (accumulator `cleaned`). -/
def cleanLLMAux (pm : Manager) (pending_comment : Option String) :
    List RawMsg → List Message → Except PyErr (List Message)
  | [], acc => .ok acc
  | r :: rs, acc =>
    match cleanOne pm pending_comment r with
    | .error e => .error e
    | .ok none => cleanLLMAux pm pending_comment rs acc
    | .ok (some msg) => cleanLLMAux pm pending_comment rs (acc ++ [msg])

def cleanLLMList (pm : Manager) (pending_comment : Option String) (result : List RawMsg) :
    Except PyErr (List Message) :=
  cleanLLMAux pm pending_comment (result.take 2) []

/-- `_llm_generate_discussion_messages(pm, emp, pending_comment, history)`.
The generator call itself is the opaque parameter `gen`: `none` stands for
"no client / call failed / JSON extraction failed / not a list", `some
result` for a successfully parsed JSON array.  The prompt (which reads
`emp` and the history) has no observable effect and is omitted. -/
def llm_generate_discussion_messages (pm : Manager) (pending_comment : Option String)
    (gen : Option (List RawMsg)) : Except PyErr (Option (List Message)) :=
  match gen with
  | none => .ok none
  | some result =>
    match cleanLLMList pm pending_comment result with
    | .error e => .error e
    | .ok cleaned => .ok (if cleaned.length = 2 then some cleaned else none)

/-! ## `continue_conversation` body after seeding/reseeding (4.6) -/

/-- `pending_comment`: the last message's text iff its role is
`teamlead`. -/
def pendingOf (conv : List Message) : Option String :=
  match conv.getLast? with
  | some m => if m.role = "teamlead" then some m.text else none
  | none => none

/-- The tail of `continue_conversation` once `convs[key]` holds `conv`:
determine the pending comment, prefer the generator path, otherwise build
the deterministic fallback pair; returns the extended conversation. -/
def continueCore (pm : Manager) (emp : Employee) (client : Bool)
    (gen : Option (List RawMsg)) (conv : List Message) : Except PyErr (List Message) :=
  let pending_comment := pendingOf conv
  let required := pm.required_skills
  let overlap_info :=
    if required.isEmpty then ([], []) else skill_overlap required emp.skills
  let alignment_pct : Int :=
    if required.isEmpty then 0 else compute_alignment required emp.skills
  match (if client then llm_generate_discussion_messages pm pending_comment gen
         else .ok none) with
  | .error e => .error e
  | .ok (some msgs) => .ok (conv ++ msgs)
  | .ok none =>
    match pending_comment with
    | some c =>
      if is_direct_project_question c then
        .ok (conv ++ [
          ⟨"manager", pm.name, pyTake 300 ("Leading project: " ++
            fmtPy pm.active_project ++ " – focusing delivery milestones.")⟩,
          ⟨"hr", some "HR Representative", pyTake 300 ("HR: Confirmed " ++
            fmtPy emp.name ++ " supports " ++ fmtPy pm.active_project ++
            " with retention & development focus.")⟩])
      else
        match enhanced_answer_teamlead c emp pm overlap_info with
        | .error e => .error e
        | .ok hr_response =>
          .ok (conv ++ [
            ⟨"manager", pm.name, fmtPy emp.name ++ " alignment " ++
              toString alignment_pct ++ "%. Overlap: " ++
              orD (joinComma overlap_info.1) "None" ++ "; gaps: " ++
              orD (joinComma (overlap_info.2.take 2)) "None" ++
              ". Comment: '" ++ pyTake 60 c ++ "...'"⟩,
            ⟨"hr", some "HR Representative", hr_response⟩])
    | none =>
      .ok (conv ++ [
        ⟨"manager", pm.name, "Next assessment: alignment " ++
          toString alignment_pct ++ "%. Leverage " ++
          orD (joinComma (overlap_info.1.take 2)) "existing strengths" ++
          "; address " ++ orD (joinComma (overlap_info.2.take 1)) "no major gaps" ++ "."⟩,
        ⟨"hr", some "HR Representative",
          "HR view: maintain engagement and start targeted training for remaining gap areas."⟩])

/-! ## The exposed conversation endpoints -/

/-- An HTTP-level response: a conversation payload or a
`JSONResponse({'error': ...}, status_code)`. -/
inductive Resp where
  | conv : List Message → Resp
  | err : String → Nat → Resp
deriving DecidableEq, Repr

/-- Observable outcome of one request: the response (or an unhandled
exception), the persisted store after the request, and whether
`_save_conversations` ran. -/
structure Outcome where
  result : Except PyErr Resp
  persisted : Store
  saved : Bool
deriving Repr

/-- `GET /api/conversation` (`get_conversation`).  On a present key the
reseed check runs purely diagnostically inside `try/except` (a `print`),
so it has no observable effect and is omitted. -/
def get_conversation (fetchPM : Int → Option Manager) (fetchEmp : Int → Option Employee)
    (manager_id employee_id : Int) (convs : Store) : Outcome :=
  match storeGet convs (convKey manager_id employee_id) with
  | some msgs => ⟨.ok (.conv msgs), convs, false⟩
  | none =>
    match fetchPM manager_id, fetchEmp employee_id with
    | some manager, some employee =>
      let seeded := seedWithFallback manager employee
      ⟨.ok (.conv seeded), storeSet convs (convKey manager_id employee_id) seeded, true⟩
    | _, _ => ⟨.ok (.err "Invalid manager or employee id" 400), convs, false⟩

/-- The part of `continue_conversation` after `convs[key]` has been
established as `conv1`: the ids are re-fetched and `pm.get(...)` /
`emp.get(...)` raise `AttributeError` when a fetch returns `None`. -/
def continueFinish (fetchPM : Int → Option Manager) (fetchEmp : Int → Option Employee)
    (client : Bool) (gen : Option (List RawMsg)) (mid eid : Int)
    (convs : Store) (conv1 : List Message) : Outcome :=
  match fetchPM mid, fetchEmp eid with
  | some pm, some emp =>
    match continueCore pm emp client gen conv1 with
    | .ok conv2 => ⟨.ok (.conv conv2), storeSet convs (convKey mid eid) conv2, true⟩
    | .error e => ⟨.error e, convs, false⟩
  | _, _ => ⟨.error .attributeError, convs, false⟩

/-- `POST /api/conversation/continue` (`continue_conversation`). -/
def continue_conversation (fetchPM : Int → Option Manager) (fetchEmp : Int → Option Employee)
    (client : Bool) (gen : Option (List RawMsg))
    (manager_id employee_id : Option Int) (convs : Store) : Outcome :=
  match manager_id, employee_id with
  | some mid, some eid =>
    (match storeGet convs (convKey mid eid) with
     | none =>
       match fetchPM mid, fetchEmp eid with
       | some pm, some emp =>
         continueFinish fetchPM fetchEmp client gen mid eid convs (seedWithFallback pm emp)
       | _, _ => ⟨.ok (.err "Invalid manager or employee id" 400), convs, false⟩
     | some msgs0 =>
       -- in-memory migration, then auto-reseed inside `try/except`
       let msgs1 := migrate_legacy_roles msgs0
       let conv1 :=
         match fetchPM mid, fetchEmp eid with
         | some pm, some emp =>
           if conversation_needs_reseed (some pm) (some emp) msgs1 then
             match seed_conversation pm emp with
             | .ok s => s
             | .error _ => msgs1
           else msgs1
         | _, _ => msgs1
       continueFinish fetchPM fetchEmp client gen mid eid convs conv1)
  | _, _ => ⟨.ok (.err "manager_id and employee_id required" 400), convs, false⟩

/-- `POST /api/conversation/new` (`new_conversation`). -/
def new_conversation (fetchPM : Int → Option Manager) (fetchEmp : Int → Option Employee)
    (manager_id employee_id : Option Int) (convs : Store) : Outcome :=
  match manager_id, employee_id with
  | some mid, some eid =>
    (match fetchPM mid, fetchEmp eid with
     | some manager, some employee =>
       let seeded := seedWithFallback manager employee
       ⟨.ok (.conv seeded), storeSet convs (convKey mid eid) seeded, true⟩
     | _, _ => ⟨.ok (.err "Invalid manager or employee id" 400), convs, false⟩)
  | _, _ => ⟨.ok (.err "manager_id and employee_id required" 400), convs, false⟩

/-- `POST /api/conversation/comment` (`add_comment`); `text` is the
payload's `text` field (`none` = key absent, handled by
`payload.get('text','')`). -/
def add_comment (fetchPM : Int → Option Manager) (fetchEmp : Int → Option Employee)
    (manager_id employee_id : Option Int) (text : Option String) (convs : Store) : Outcome :=
  match manager_id, employee_id with
  | some mid, some eid =>
    let comment := pyStrip (text.getD "")
    if comment = "" then ⟨.ok (.err "text required" 400), convs, false⟩
    else
      match (match storeGet convs (convKey mid eid) with
             | some msgs => some msgs
             | none =>
               match fetchPM mid, fetchEmp eid with
               | some manager, some employee => some (seedWithFallbackPlain manager employee)
               | _, _ => none) with
      | none =>
        ⟨.ok (.err "Conversation not found and unable to seed (invalid ids)." 404), convs, false⟩
      | some base =>
        let conv2 := base ++ [⟨"teamlead", some "Team Lead", pyTake 500 comment⟩]
        ⟨.ok (.conv conv2), storeSet convs (convKey mid eid) conv2, true⟩
  | _, _ => ⟨.ok (.err "manager_id and employee_id required" 400), convs, false⟩

/-! ## Claim C6: overlap/gap partition -/

/-- **C6**: `_skill_overlap` returns `overlap` = sorted intersection and
`gaps` = sorted difference `required − candidate`; as sets
`overlap ∪ gaps = required`, `overlap ∩ gaps = ∅`, and an empty `required`
yields two empty lists. -/
theorem C6_overlap_gap_partition (required candidate : List String) :
    (∀ s, s ∈ (skill_overlap required candidate).1 ↔ s ∈ required ∧ s ∈ candidate) ∧
    (∀ s, s ∈ (skill_overlap required candidate).2 ↔ s ∈ required ∧ s ∉ candidate) ∧
    List.Sorted (· ≤ ·) (skill_overlap required candidate).1 ∧
    List.Sorted (· ≤ ·) (skill_overlap required candidate).2 ∧
    (∀ s, s ∈ (skill_overlap required candidate).1 → s ∉ (skill_overlap required candidate).2) ∧
    (required = [] → skill_overlap required candidate = ([], [])) := by
  have h1 : ∀ s, s ∈ (skill_overlap required candidate).1 ↔ s ∈ required ∧ s ∈ candidate := by
    intro s
    simp only [skill_overlap, pySorted]
    rw [(List.perm_insertionSort (· ≤ ·) _).mem_iff]
    simp [List.mem_filter, List.mem_dedup]
  have h2 : ∀ s, s ∈ (skill_overlap required candidate).2 ↔ s ∈ required ∧ s ∉ candidate := by
    intro s
    simp only [skill_overlap, pySorted]
    rw [(List.perm_insertionSort (· ≤ ·) _).mem_iff]
    simp [List.mem_filter, List.mem_dedup]
  refine ⟨h1, h2, ?_, ?_, ?_, ?_⟩
  · exact List.sorted_insertionSort _ _
  · exact List.sorted_insertionSort _ _
  · intro s hs1 hs2
    exact ((h2 s).mp hs2).2 ((h1 s).mp hs1).2
  · intro h
    subst h
    rfl

/-- Closed instance of C6 (discharging the inner implication). -/
theorem C6_overlap_gap_partition_witness : skill_overlap [] ["x"] = ([], []) :=
  (C6_overlap_gap_partition [] ["x"]).2.2.2.2.2 rfl

/-! ## Claim C4: alignment percentage -/

/-- 100 pairwise-distinct one-character skill names. -/
def req100 : List String := (List.range 100).map (fun n => ⟨[Char.ofNat (65 + n)]⟩)

/-- The first 29 of them. -/
def cand29 : List String := (List.range 29).map (fun n => ⟨[Char.ofNat (65 + n)]⟩)

set_option maxRecDepth 8000 in
/-- **C4 counterexample**: with 100 distinct required skills of which the
candidate has exactly 29, the code returns `int(0.29 * 100) = 28` (the
binary64 product `0.29 * 100` is slightly below `29`), not
`floor(100·29/100) = 29` as the claim's formula states. -/
theorem C4_counterexample :
    req100.dedup.length = 100 ∧
    (req100.dedup.filter (fun s => cand29.contains s)).length = 29 ∧
    compute_alignment req100 cand29 = 28 ∧
    (100 * 29) / 100 = (29 : Int) := by
  refine ⟨by decide, by decide, by decide, by decide⟩

/-- **C4 (amended)**: `_compute_alignment` returns `0` for an empty
`required` and otherwise `int((o / r) * 100)` evaluated in binary64
arithmetic over the deduplicated required set — which can fall one below
`floor(100·o/r)` (see the counterexample) — and the result always lies in
`0..100`. -/
theorem C4_alignment_bounds (required candidate : List String) :
    0 ≤ compute_alignment required candidate ∧
    compute_alignment required candidate ≤ 100 ∧
    (required = [] → compute_alignment required candidate = 0) := by
  obtain ⟨h0, h1⟩ := compute_alignment_mem required candidate
  exact ⟨h0, h1, fun h => by subst h; rfl⟩

/-- Closed instance of C4 (discharging the inner implication). -/
theorem C4_alignment_bounds_witness :
    compute_alignment [] ["x"] = 0 ∧ 0 ≤ compute_alignment ["a"] ["b"] :=
  ⟨(C4_alignment_bounds [] ["x"]).2.2 rfl, (C4_alignment_bounds ["a"] ["b"]).1⟩

/-! ## Claim C8: reads do not mutate -/

/-- **C8**: for a key already present in the store, `get_conversation`
returns the stored conversation unchanged, performs no write (no
migration, no reseed), regardless of what the record fetches return —
the reseed check on this path is diagnostic only. -/
theorem C8_get_conversation_readonly (fetchPM : Int → Option Manager)
    (fetchEmp : Int → Option Employee) (manager_id employee_id : Int)
    (convs : Store) (msgs : List Message)
    (h : storeGet convs (convKey manager_id employee_id) = some msgs) :
    get_conversation fetchPM fetchEmp manager_id employee_id convs =
      ⟨.ok (.conv msgs), convs, false⟩ := by
  simp only [get_conversation, h]

/-- Closed instance of C8: a stored conversation whose intro names a
different employee (so `_conversation_needs_reseed` would report `true`)
is still returned untouched, with no save. -/
theorem C8_get_conversation_readonly_witness :
    get_conversation
      (fun _ => some ⟨some "PM", some "P", some "S", []⟩)
      (fun _ => some ⟨some "Emp Test", some "T", some 1, some "BS", some "L", [], [], some "ok"⟩)
      1 1 [("pm1-emp1", [⟨"lead", some "Tech Lead", "Reviewing Someone Else"⟩])] =
      ⟨.ok (.conv [⟨"lead", some "Tech Lead", "Reviewing Someone Else"⟩]),
        [("pm1-emp1", [⟨"lead", some "Tech Lead", "Reviewing Someone Else"⟩])], false⟩ :=
  C8_get_conversation_readonly _ _ 1 1 _ _ (by decide)

/-! ## Claim C10: the name guard short-circuits reseed detection -/

/-- **C10**: with manager and employee records present and a non-empty
message list, `_conversation_needs_reseed` returns `False` whenever the
employee's name is `None` or empty — before the intro-mismatch check and
before the legacy-role scan. -/
theorem C10_needs_reseed_name_guard (mgr : Manager) (emp : Employee)
    (msgs : List Message) (hmsgs : msgs ≠ [])
    (hname : emp.name = none ∨ emp.name = some "") :
    conversation_needs_reseed (some mgr) (some emp) msgs = false := by
  cases msgs with
  | nil => exact absurd rfl hmsgs
  | cons a l =>
    rcases hname with h | h <;> simp [conversation_needs_reseed, h]

/-- Closed instance of C10: the employee record has no name, the intro
names a different employee and a legacy "Tech Lead" message is present;
the detector still reports `false`. -/
theorem C10_needs_reseed_name_guard_witness :
    conversation_needs_reseed
      (some ⟨some "PM", some "P", some "S", []⟩)
      (some ⟨none, some "T", some 1, some "BS", some "L", [], [], some "ok"⟩)
      [⟨"manager", some "PM", "Reviewing Someone Else"⟩,
       ⟨"lead", some "Tech Lead", "x"⟩] = false :=
  C10_needs_reseed_name_guard _ _ _ (by decide) (Or.inl rfl)

/-! ## Claim C2: invalid references -/

/-- **C2 evidence**: when the conversation key already exists in the store
and the ids no longer resolve, `continue_conversation` does not return the
`InvalidReference` failure: the re-fetch returns `None` and
`pm.get('required_skills', [])` raises an unhandled `AttributeError`
(the id check only runs on the seed-miss branch).  Nothing is saved. -/
theorem C2_continue_crashes_on_existing_key :
    continue_conversation (fun _ => none) (fun _ => none) false none (some 1) (some 1)
        [("pm1-emp1", [⟨"manager", some "M", "x"⟩])] =
      ⟨.error .attributeError, [("pm1-emp1", [⟨"manager", some "M", "x"⟩])], false⟩ := by
  rfl

/-! ## Claim C5: seeding totality and the fallback shapes -/

def mgrC5 : Manager := ⟨some "M", some "P", some "PS", []⟩

/-- An employee whose `education` is SQL `NULL`: seeding raises
`AttributeError` (`None.split(' - ')`). -/
def empC5 : Employee := ⟨some "E", some "t", some 1, none, some "l", [], [], some "s"⟩

/-- **C5 counterexample**: on the same failing records, the lazy seed
inside `add_comment` stores the fixed text without the exception kind,
while `get_conversation`'s seeding site stores the text with
`: AttributeError.` — so the claimed fallback shape is *not* produced on
every seeding call site. -/
theorem C5_counterexample :
    (add_comment (fun _ => some mgrC5) (fun _ => some empC5) (some 1) (some 1)
        (some "hello") []).persisted =
      [("pm1-emp1",
        [⟨"manager", some "M", "Conversation seed unavailable due to data error."⟩,
         ⟨"teamlead", some "Team Lead", "hello"⟩])] ∧
    (get_conversation (fun _ => some mgrC5) (fun _ => some empC5) 1 1 []).persisted =
      [("pm1-emp1",
        [⟨"manager", some "M",
          "Conversation seed unavailable due to data error: AttributeError."⟩])] ∧
    "Conversation seed unavailable due to data error." ≠
      "Conversation seed unavailable due to data error: AttributeError." := by
  refine ⟨by decide, by decide, by decide⟩

/-- **C5 (amended)**: seeding never propagates an exception: for every
manager/employee record each seeding call site stores either the full
4-message conversation or a 1-message fallback; the
`get_conversation` / `new_conversation` (and `continue_conversation`)
sites use the text `"Conversation seed unavailable due to data error:
<ErrorKind>."`, while the lazy seed inside `add_comment` uses the fixed
text without the kind. -/
theorem C5_seeding_total (mgr : Manager) (emp : Employee) :
    ((∃ msgs, seed_conversation mgr emp = .ok msgs ∧ msgs.length = 4 ∧
        seedWithFallback mgr emp = msgs ∧ seedWithFallbackPlain mgr emp = msgs) ∨
     (∃ e, seed_conversation mgr emp = .error e ∧
        seedWithFallback mgr emp =
          [⟨"manager", mgr.name,
            "Conversation seed unavailable due to data error: " ++ e.pyName ++ "."⟩] ∧
        seedWithFallbackPlain mgr emp =
          [⟨"manager", mgr.name, "Conversation seed unavailable due to data error."⟩])) ∧
    (∀ fetchPM fetchEmp mid eid convs,
      fetchPM mid = some mgr → fetchEmp eid = some emp →
      storeGet convs (convKey mid eid) = none →
      (get_conversation fetchPM fetchEmp mid eid convs).result =
        .ok (.conv (seedWithFallback mgr emp)) ∧
      (new_conversation fetchPM fetchEmp (some mid) (some eid) convs).result =
        .ok (.conv (seedWithFallback mgr emp))) := by
  constructor
  · cases hok : seed_conversation mgr emp with
    | ok msgs =>
      left
      refine ⟨msgs, rfl, ?_, ?_, ?_⟩
      · simp only [seed_conversation] at hok
        rcases he : emp.education with _ | edu <;> rw [he] at hok
        · simp at hok
        · rcases hs : emp.summary with _ | summ <;> rw [hs] at hok
          · simp at hok
          · simp only [Except.ok.injEq] at hok
            rw [← hok]
            rfl
      · simp [seedWithFallback, hok]
      · simp [seedWithFallbackPlain, hok]
    | error e =>
      right
      refine ⟨e, rfl, ?_, ?_⟩
      · simp [seedWithFallback, hok]
      · simp [seedWithFallbackPlain, hok]
  · intro fetchPM fetchEmp mid eid convs hpm hemp hstore
    constructor
    · simp [get_conversation, hstore, hpm, hemp]
    · simp [new_conversation, hpm, hemp]

/-- Closed instance of C5 (amended), applied to the failing records. -/
theorem C5_seeding_total_witness :
    (get_conversation (fun _ => some mgrC5) (fun _ => some empC5) 1 1 []).result =
      .ok (.conv (seedWithFallback mgrC5 empC5)) :=
  ((C5_seeding_total mgrC5 empC5).2 _ _ 1 1 [] rfl rfl rfl).1

/-! ## Claim C3: the 500-character message bound -/

def longName : String := ⟨List.replicate 600 'a'⟩

def mgrC3 : Manager := ⟨some "PM", some "P", some "S", []⟩

def empC3 : Employee :=
  ⟨some longName, some "T", some 3, some "BS - U", some "L", [], [], some "ok"⟩

set_option maxRecDepth 8000 in
/-- **C3 counterexample**: seeding interpolates the employee name into the
intro without truncation, so a 600-character name persists a stored
message longer than 500 characters through `get_conversation`. -/
theorem C3_counterexample :
    (get_conversation (fun _ => some mgrC3) (fun _ => some empC3) 1 1 []).persisted.all
      (fun kv => kv.2.all (fun m => m.text.length ≤ 500)) = false ∧
    (get_conversation (fun _ => some mgrC3) (fun _ => some empC3) 1 1 []).saved = true := by
  refine ⟨by decide, by decide⟩

/-- On success, one cleaned generator entry has a normalised role and a
text capped at 500 characters. -/
theorem cleanOne_ok_some_spec {pm : Manager} {pending : Option String} {raw : RawMsg}
    {msg : Message} (h : cleanOne pm pending raw = .ok (some msg)) :
    (msg.role = "manager" ∨ msg.role = "hr") ∧ msg.text.length ≤ 500 := by
  simp only [cleanOne] at h
  split at h
  · exact absurd h (by simp)
  · rename_i t1 heq
    simp only [Except.ok.injEq] at h
    split at h
    · exact absurd h (by simp)
    · rw [Option.some.injEq] at h
      rw [← h]
      dsimp only
      refine ⟨?_, ?_⟩
      · split
        · exact Or.inl rfl
        · split
          · exact Or.inr rfl
          · exact Or.inl rfl
      · show (t1.data.take 500).length ≤ 500
        exact List.length_take_le 500 t1.data

/-- The cleaning loop preserves the per-entry bound. -/
theorem cleanLLMAux_spec (pm : Manager) (pending : Option String) :
    ∀ (rs : List RawMsg) (acc msgs : List Message),
    (∀ m ∈ acc, (m.role = "manager" ∨ m.role = "hr") ∧ m.text.length ≤ 500) →
    cleanLLMAux pm pending rs acc = .ok msgs →
    ∀ m ∈ msgs, (m.role = "manager" ∨ m.role = "hr") ∧ m.text.length ≤ 500 := by
  intro rs
  induction rs with
  | nil =>
    intro acc msgs hacc h
    simp only [cleanLLMAux, Except.ok.injEq] at h
    rw [← h]
    exact hacc
  | cons r rs ih =>
    intro acc msgs hacc h
    simp only [cleanLLMAux] at h
    split at h
    · exact absurd h (by simp)
    · exact ih _ _ hacc h
    · rename_i msg heq
      refine ih _ _ ?_ h
      intro m hm
      rcases List.mem_append.mp hm with hm | hm
      · exact hacc m hm
      · rw [List.mem_singleton.mp hm]
        exact cleanOne_ok_some_spec heq

theorem cleanLLMList_spec {pm : Manager} {pending : Option String} {result : List RawMsg}
    {msgs : List Message} (h : cleanLLMList pm pending result = .ok msgs) :
    ∀ m ∈ msgs, (m.role = "manager" ∨ m.role = "hr") ∧ m.text.length ≤ 500 :=
  cleanLLMAux_spec pm pending _ [] msgs (by intro m hm; cases hm) h

/-- A successful `add_comment` always ends the stored conversation with a
`teamlead` message whose text was truncated to 500 characters. -/
theorem add_comment_last_bounded (fetchPM : Int → Option Manager)
    (fetchEmp : Int → Option Employee) (manager_id employee_id : Option Int)
    (t : Option String) (convs : Store) (msgs : List Message)
    (h : (add_comment fetchPM fetchEmp manager_id employee_id t convs).result =
      .ok (.conv msgs)) :
    ∃ m, msgs.getLast? = some m ∧ m.role = "teamlead" ∧ m.text.length ≤ 500 := by
  rcases manager_id with _ | mid
  · exact absurd h (by simp [add_comment])
  rcases employee_id with _ | eid
  · exact absurd h (by simp [add_comment])
  simp only [add_comment] at h
  split at h
  · exact absurd h (by simp)
  · split at h
    · exact absurd h (by simp)
    · rename_i base hbase
      dsimp only at h
      simp only [Except.ok.injEq, Resp.conv.injEq] at h
      refine ⟨⟨"teamlead", some "Team Lead", pyTake 500 (pyStrip (t.getD ""))⟩, ?_, rfl, ?_⟩
      · rw [← h]
        exact List.getLast?_concat _
      · show ((pyStrip (t.getD "")).data.take 500).length ≤ 500
        exact List.length_take_le 500 (pyStrip (t.getD "")).data

/-- **C3 (amended)**: truncation to 500 characters is applied before
persistence on the LLM continuation path and on comment insertion; the
seeded and deterministic-fallback messages, by contrast, are templated
without a final cap and can exceed 500 characters (see the
counterexample). -/
theorem C3_truncation_sites :
    (∀ (pm : Manager) (pending : Option String) (result : List RawMsg)
        (msgs : List Message), cleanLLMList pm pending result = .ok msgs →
      ∀ m ∈ msgs, m.text.length ≤ 500) ∧
    (∀ (fetchPM : Int → Option Manager) (fetchEmp : Int → Option Employee)
        (manager_id employee_id : Option Int) (t : Option String) (convs : Store)
        (msgs : List Message),
      (add_comment fetchPM fetchEmp manager_id employee_id t convs).result =
        .ok (.conv msgs) →
      ∃ m, msgs.getLast? = some m ∧ m.text.length ≤ 500) := by
  constructor
  · intro pm pending result msgs h m hm
    exact (cleanLLMList_spec h m hm).2
  · intro fetchPM fetchEmp manager_id employee_id t convs msgs h
    obtain ⟨m, hm, _, hlen⟩ := add_comment_last_bounded _ _ _ _ _ _ _ h
    exact ⟨m, hm, hlen⟩

/-- Closed instance of C3 (amended): a cleaned generator entry and an
appended comment on concrete inputs. -/
theorem C3_truncation_sites_witness :
    (∀ m ∈ [(⟨"hr", some "HR Representative", "hello"⟩ : Message)], m.text.length ≤ 500) ∧
    (∃ m, ([(⟨"manager", some "M", "x"⟩ : Message),
            ⟨"teamlead", some "Team Lead", "hi"⟩].getLast? = some m ∧ m.text.length ≤ 500)) :=
  ⟨fun m hm => C3_truncation_sites.1 mgrC3 none [⟨some "hr", some "hello"⟩] _ (by decide) m hm,
   C3_truncation_sites.2 (fun _ => some mgrC3) (fun _ => some empC3) (some 1) (some 1)
     (some "hi") [("pm1-emp1", [⟨"manager", some "M", "x"⟩])] _ (by decide)⟩

/-! ## Claim C7: reseed-detection symmetry for fresh seeds -/

theorem listHasPrefix_append (p r : List Char) : listHasPrefix p (p ++ r) = true := by
  induction p with
  | nil => rfl
  | cons a as ih => simp [listHasPrefix, ih]

theorem listHasSub_of_startsWith {p l : List Char} (h : listHasPrefix p l = true) :
    listHasSub p l = true := by
  cases l with
  | nil =>
    cases p with
    | nil => rfl
    | cons a as => simp [listHasPrefix] at h
  | cons x xs => simp [listHasSub, h]

theorem data_append (s t : String) : (s ++ t).data = s.data ++ t.data := by
  cases s; cases t; rfl

/-- A string of the form `p ++ (q ++ r)` contains the substring
`p ++ q`. -/
theorem listHasSub_append_append (p q r : List Char) :
    listHasSub (p ++ q) (p ++ (q ++ r)) = true := by
  rw [← List.append_assoc]
  exact listHasSub_of_startsWith (listHasPrefix_append (p ++ q) r)

def mgrTL : Manager := ⟨some "Tech Lead Tom", some "P", some "S", []⟩

def empTL : Employee := ⟨some "Emp", some "T", some 1, some "BS", some "L", [], [], some "ok"⟩

/-- **C7 counterexample**: a manager literally named "Tech Lead Tom"
seeds successfully, yet the fresh seed immediately triggers
`_conversation_needs_reseed` for the same pair, because every
manager-role message's speaker starts with "tech lead" after
lower-casing. -/
theorem C7_counterexample :
    (seed_conversation mgrTL empTL).map
      (conversation_needs_reseed (some mgrTL) (some empTL)) = .ok true := by
  decide

set_option maxHeartbeats 2000000 in
/-- **C7 (amended)**: a freshly seeded conversation never triggers
`_conversation_needs_reseed` for the same `(manager, employee)` pair,
*provided* the manager's name does not start with "Tech Lead"
(case-insensitively); the first seeded message always contains
`"Reviewing {employee.name}"`. -/
theorem C7_seed_reseed_symmetry (mgr : Manager) (emp : Employee) (msgs : List Message)
    (hok : seed_conversation mgr emp = .ok msgs)
    (hname : pyStartsWith "tech lead" (pyLower (mgr.name.getD "")) = false) :
    conversation_needs_reseed (some mgr) (some emp) msgs = false ∧
    (∀ nm, emp.name = some nm →
      pyIn ("Reviewing " ++ nm) ((msgs.headD ⟨"", none, ""⟩).text) = true) := by
  simp only [seed_conversation] at hok
  rcases he : emp.education with _ | edu <;> rw [he] at hok
  · exact absurd hok (by simp)
  rcases hs : emp.summary with _ | summ <;> rw [hs] at hok
  · exact absurd hok (by simp)
  simp only [Except.ok.injEq] at hok
  subst hok
  have hHR : pyStartsWith "tech lead" (pyLower "HR Representative") = false := by
    decide
  have hcontain : ∀ nm, emp.name = some nm →
      pyIn ("Reviewing " ++ nm)
        ("Reviewing " ++ fmtPy emp.name ++ " for project '" ++ fmtPy mgr.active_project ++
          "': " ++ toString (emp.experience_years.getD 0) ++ " yrs experience; " ++
          (match emp.metrics with | [] => ("Metric", "N/A") | kv :: _ => kv).1 ++ "=" ++
          (match emp.metrics with | [] => ("Metric", "N/A") | kv :: _ => kv).2 ++ ".") = true := by
    intro nm hn
    rw [hn]
    show listHasSub _ _ = true
    simp only [data_append, List.append_assoc, fmtPy, Option.getD]
    exact listHasSub_append_append _ _ _
  constructor
  · rcases hn : emp.name with _ | nm
    · simp [conversation_needs_reseed, hn]
    by_cases hnm : nm = ""
    · simp [conversation_needs_reseed, hn, hnm]
    · have hc := hcontain nm hn
      rw [hn] at hc
      simp only [conversation_needs_reseed, hn]
      rw [if_neg hnm, if_neg (fun hcon => hcon hc)]
      simp [hname, hHR]
  · intro nm hn
    exact hcontain nm hn

/-- Closed instance of C7 (amended). -/
theorem C7_seed_reseed_symmetry_witness :
    conversation_needs_reseed (some mgrC3) (some empTL)
      ((seed_conversation mgrC3 empTL).toOption.getD []) = false :=
  (C7_seed_reseed_symmetry mgrC3 empTL _ (by decide) (by decide)).1

/-! ## Claim C1: the continuation appends exactly two messages -/

/-- Spec §3 conformance of a manager record: identity fields present
(values not SQL `NULL`). -/
def Manager.WF (m : Manager) : Prop :=
  m.name.isSome ∧ m.active_project.isSome ∧ m.project_summary.isSome

/-- Spec §3 conformance of an employee record: identity fields present and
the name containing at least one word (`.split()[0]` must not raise). -/
def Employee.WF (e : Employee) : Prop :=
  (∃ s, e.name = some s ∧ pyWords s ≠ []) ∧ e.title.isSome ∧ e.education.isSome ∧
    e.location.isSome ∧ e.summary.isSome

theorem compressText_isOk (pm : Manager) (hap : pm.active_project.isSome) (t : String) :
    ∃ t', compressText pm t = .ok t' := by
  simp only [compressText]
  split
  · exact ⟨t, rfl⟩
  · rcases Option.isSome_iff_exists.mp hap with ⟨ap, hapEq⟩
    rw [hapEq]
    exact ⟨_, rfl⟩

theorem cleanOne_isOk (pm : Manager) (hap : pm.active_project.isSome)
    (pending : Option String) (raw : RawMsg) :
    ∃ o, cleanOne pm pending raw = .ok o := by
  simp only [cleanOne]
  rcases pending with _ | c
  · exact ⟨_, rfl⟩
  · dsimp only
    by_cases hd : is_direct_project_question c
    · obtain ⟨t', ht'⟩ := compressText_isOk pm hap (pyStrip (raw.text.getD ""))
      exact ⟨_, by rw [if_pos hd, ht']⟩
    · exact ⟨_, by rw [if_neg hd]⟩

theorem cleanLLMAux_isOk (pm : Manager) (hap : pm.active_project.isSome)
    (pending : Option String) :
    ∀ (rs : List RawMsg) (acc : List Message),
      ∃ msgs, cleanLLMAux pm pending rs acc = .ok msgs := by
  intro rs
  induction rs with
  | nil => intro acc; exact ⟨acc, rfl⟩
  | cons r rs ih =>
    intro acc
    obtain ⟨o, ho⟩ := cleanOne_isOk pm hap pending r
    rcases o with _ | msg
    · obtain ⟨msgs, hm⟩ := ih acc
      exact ⟨msgs, by simp only [cleanLLMAux, ho]; exact hm⟩
    · obtain ⟨msgs, hm⟩ := ih (acc ++ [msg])
      exact ⟨msgs, by simp only [cleanLLMAux, ho]; exact hm⟩

/-- With a present `active_project`, the generator path never raises, and
an accepted result has exactly 2 entries with normalised roles. -/
theorem llm_generate_isOk (pm : Manager) (hap : pm.active_project.isSome)
    (pending : Option String) (gen : Option (List RawMsg)) :
    ∃ o, llm_generate_discussion_messages pm pending gen = .ok o ∧
      ∀ msgs, o = some msgs → msgs.length = 2 ∧
        ∀ m ∈ msgs, m.role = "manager" ∨ m.role = "hr" := by
  rcases gen with _ | result
  · exact ⟨none, rfl, by intro msgs h; cases h⟩
  · obtain ⟨cleaned, hc⟩ := cleanLLMAux_isOk pm hap pending (result.take 2) []
    refine ⟨if cleaned.length = 2 then some cleaned else none, ?_, ?_⟩
    · simp only [llm_generate_discussion_messages, cleanLLMList, hc]
    · intro msgs h
      split at h
      · rename_i hlen
        rw [Option.some.injEq] at h
        subst h
        refine ⟨hlen, fun m hm => ?_⟩
        exact (cleanLLMAux_spec pm pending _ [] _ (by intro m hm; cases hm) hc m hm).1
      · cases h

theorem enhanced_answer_isOk (c : String) (emp : Employee) (pm : Manager)
    (oi : List String × List String) (hname : ∃ s, emp.name = some s ∧ pyWords s ≠ []) :
    ∃ t, enhanced_answer_teamlead c emp pm oi = .ok t := by
  obtain ⟨s, hs, hw⟩ := hname
  simp only [enhanced_answer_teamlead, hs]
  rcases hpw : pyWords s with _ | ⟨w, ws⟩
  · exact absurd hpw hw
  · dsimp only
    split <;> exact ⟨_, rfl⟩

def pmC1 : Manager := ⟨some "PM One", some "Proj", some "Sum", []⟩

def empC1 : Employee := ⟨some "Emp One", some "T", some 2, some "BS", some "L", [], [], some "s"⟩

def convC1 : List Message := [⟨"teamlead", some "Team Lead", "thoughts?"⟩]

/-- A generator result the cleaner accepts whose two entries both
normalise to the `hr` role. -/
def genC1 : List RawMsg := [⟨some "hr", some "alpha"⟩, ⟨some "HR", some "beta"⟩]

/-- **C1 counterexample**: the last pre-existing message is a `teamlead`
comment, the cleaner accepts the generator result, and the two appended
messages are both `hr` — not one `manager` followed by one `hr`.  The
cleaner normalises roles but never enforces the manager/hr order. -/
theorem C1_counterexample :
    (convC1.getLast?).map Message.role = some "teamlead" ∧
    continueCore pmC1 empC1 true (some genC1) convC1 =
      .ok (convC1 ++ [⟨"hr", some "HR Representative", "alpha"⟩,
                      ⟨"hr", some "HR Representative", "beta"⟩]) := by
  refine ⟨rfl, by decide⟩

/-- **C1 (amended)**: for spec-conformant records, `Continue` appends
exactly 2 messages on both the accepted-generator path and the
deterministic fallback path, each with role `manager` or `hr`; the
appended pair is guaranteed to be exactly one `manager` followed by one
`hr` (with forced speakers) on the deterministic fallback path when the
last pre-existing message is a `teamlead` comment, but on the generator
path the roles follow the generator output. -/
theorem C1_continue_appends_two (pm : Manager) (emp : Employee) (client : Bool)
    (gen : Option (List RawMsg)) (conv : List Message)
    (hpm : pm.WF) (hemp : emp.WF) :
    ∃ m1 m2, continueCore pm emp client gen conv = .ok (conv ++ [m1, m2]) ∧
      (m1.role = "manager" ∨ m1.role = "hr") ∧
      (m2.role = "manager" ∨ m2.role = "hr") ∧
      (((if client then llm_generate_discussion_messages pm (pendingOf conv) gen
          else .ok none) = .ok none) →
        ∀ c, pendingOf conv = some c →
          m1.role = "manager" ∧ m1.speaker = pm.name ∧ m2.role = "hr" ∧
          m2.speaker = some "HR Representative") := by
  obtain ⟨o, ho, hspec⟩ := llm_generate_isOk pm hpm.2.1 (pendingOf conv) gen
  have hllm : (if client then llm_generate_discussion_messages pm (pendingOf conv) gen
      else .ok none) = .ok (if client then o else none) := by
    cases client <;> simp [ho]
  simp only [continueCore]
  rw [hllm]
  rcases hc2 : (if client then o else none) with _ | msgs
  · -- fallback path
    dsimp only
    rcases hp : pendingOf conv with _ | c
    · exact ⟨_, _, rfl, Or.inl rfl, Or.inr rfl,
        fun _ c hc => absurd hc (by simp)⟩
    · dsimp only
      by_cases hd : is_direct_project_question c
      · rw [if_pos hd]
        exact ⟨_, _, rfl, Or.inl rfl, Or.inr rfl,
          fun _ _ _ => ⟨rfl, rfl, rfl, rfl⟩⟩
      · rw [if_neg hd]
        obtain ⟨t, ht⟩ := enhanced_answer_isOk c emp pm
          (if pm.required_skills.isEmpty then ([], [])
           else skill_overlap pm.required_skills emp.skills) hemp.1
        rw [ht]
        exact ⟨_, _, rfl, Or.inl rfl, Or.inr rfl,
          fun _ _ _ => ⟨rfl, rfl, rfl, rfl⟩⟩
  · -- accepted generator path
    dsimp only
    have homsgs : o = some msgs := by
      cases client
      · exact absurd hc2 (by simp)
      · exact hc2
    obtain ⟨hlen, hroles⟩ := hspec msgs homsgs
    obtain ⟨m1, m2, rfl⟩ := List.length_eq_two.mp hlen
    refine ⟨m1, m2, rfl, hroles m1 (by simp), hroles m2 (by simp), ?_⟩
    intro habs
    exact absurd habs (by simp)

/-- Closed instance of C1 (amended): fallback continuation after a
team-lead comment. -/
theorem C1_continue_appends_two_witness :
    ∃ m1 m2, continueCore pmC1 empC1 false none convC1 = .ok (convC1 ++ [m1, m2]) ∧
      (m1.role = "manager" ∨ m1.role = "hr") ∧
      (m2.role = "manager" ∨ m2.role = "hr") ∧
      (((if false then llm_generate_discussion_messages pmC1 (pendingOf convC1) none
          else .ok none) = .ok none) →
        ∀ c, pendingOf convC1 = some c →
          m1.role = "manager" ∧ m1.speaker = pmC1.name ∧ m2.role = "hr" ∧
          m2.speaker = some "HR Representative") :=
  C1_continue_appends_two pmC1 empC1 false none convC1
    ⟨rfl, rfl, rfl⟩ ⟨⟨"Emp One", rfl, by decide⟩, rfl, rfl, rfl, rfl⟩

/-! ## Claim C9: the unanchored 1–2 digit hobby pattern -/

def empC9 : Employee :=
  ⟨some "E", none, none, none, none, [], [], some "2 activities and 123 hobbies"⟩

/-- **C9 counterexample**: the claim quantifies over every summary
containing a ≥3-digit number followed by a hobby keyword, but `re.search`
takes the *leftmost* match: here `"2 activities"` wins and the extractor
returns 2, not the last two digits 23 of `"123 hobbies"`. -/
theorem C9_counterexample :
    pyIn "123 hobbies" (empC9.summary.getD "") = true ∧
    extract_employee_facts empC9 = some 2 ∧ (2 : Nat) ≠ 23 := by
  refine ⟨by decide, by decide, by decide⟩

theorem pyDigit_bounds {c : Char} (h : pyDigit c = true) :
    48 ≤ c.toNat ∧ c.toNat ≤ 57 := by
  simp only [pyDigit, Bool.and_eq_true, decide_eq_true_eq] at h
  exact h

theorem ne_digit_of_gt {c d : Char} (hc : pyDigit c = true) (hd : 57 < d.toNat) :
    ¬(d = c) := by
  intro he
  rw [he] at hd
  have := pyDigit_bounds hc
  omega

theorem pySpace_digit_false {c : Char} (h : pyDigit c = true) : pySpace c = false := by
  have := pyDigit_bounds h
  simp only [pySpace, Bool.or_eq_false_iff, decide_eq_false_iff_not]
  omega

theorem lower_digit {c : Char} (h : pyDigit c = true) : pyLowerChar c = c := by
  have := pyDigit_bounds h
  simp only [pyLowerChar]
  rw [if_neg]
  omega

theorem map_lower_digits : ∀ (l : List Char), (∀ ch ∈ l, pyDigit ch = true) →
    l.map pyLowerChar = l := by
  intro l
  induction l with
  | nil => intro _; rfl
  | cons c cs ih =>
    intro h
    rw [List.map_cons, lower_digit (h c (by simp)), ih (fun ch hch => h ch (by simp [hch]))]

theorem eatLit_append (p r : List Char) : eatLit p (p ++ r) = some r := by
  induction p with
  | nil => rfl
  | cons a as ih => simp [eatLit, ih]

/-- A 1–2 digit window inside a run of three digits never matches: the
mandatory `\s+` after the digits hits another digit. -/
theorem matchHobbyAt_three_digits {a b c : Char} (ha : pyDigit a = true)
    (hb : pyDigit b = true) (hc : pyDigit c = true) (l : List Char) :
    matchHobbyAt (a :: b :: c :: l) = none := by
  have hb' : pySpace b = false := pySpace_digit_false hb
  have hc' : pySpace c = false := pySpace_digit_false hc
  have h1 : eatLit "exactly".data (a :: b :: c :: l) = none := by
    rw [show "exactly".data = 'e' :: "xactly".data from rfl]
    simp only [eatLit]
    rw [if_neg (ne_digit_of_gt ha (by decide))]
  have h2 : eatLit "has".data (a :: b :: c :: l) = none := by
    rw [show "has".data = 'h' :: "as".data from rfl]
    simp only [eatLit]
    rw [if_neg (ne_digit_of_gt ha (by decide))]
  have h3 : eatLit "with".data (a :: b :: c :: l) = none := by
    rw [show "with".data = 'w' :: "ith".data from rfl]
    simp only [eatLit]
    rw [if_neg (ne_digit_of_gt ha (by decide))]
  have hmb : matchAfterDigits (b :: c :: l) = false := by
    simp only [matchAfterDigits, eatSpaces1, hb']
    rfl
  have hmc : matchAfterDigits (c :: l) = false := by
    simp only [matchAfterDigits, eatSpaces1, hc']
    rfl
  simp only [matchHobbyAt, prefThen, h1, h2, h3, digitsThen, ha, hb, hmb, hmc]
  rfl

theorem searchHobby_cons_none {x : Char} {xs : List Char}
    (h : matchHobbyAt (x :: xs) = none) : searchHobby (x :: xs) = searchHobby xs := by
  simp [searchHobby, h]

/-- `re.search` skips every position inside a digit run of length ≥ 3 that
ends two digits before a space. -/
theorem searchHobby_skips_digit_run : ∀ (front : List Char),
    (∀ ch ∈ front, pyDigit ch = true) →
    ∀ (d1 d2 : Char), pyDigit d1 = true → pyDigit d2 = true → ∀ (tail : List Char),
    searchHobby (front ++ d1 :: d2 :: tail) = searchHobby (d1 :: d2 :: tail) := by
  intro front
  induction front with
  | nil => intro _ d1 d2 _ _ tail; rfl
  | cons f fr ih =>
    intro hall d1 d2 h1 h2 tail
    have hf : pyDigit f = true := hall f (by simp)
    have hfr : ∀ ch ∈ fr, pyDigit ch = true := fun ch hch => hall ch (by simp [hch])
    have hstep : searchHobby ((f :: fr) ++ d1 :: d2 :: tail) =
        searchHobby (fr ++ d1 :: d2 :: tail) := by
      cases fr with
      | nil => exact searchHobby_cons_none (matchHobbyAt_three_digits hf h1 h2 _)
      | cons g gr =>
        have hg : pyDigit g = true := hfr g (by simp)
        cases gr with
        | nil => exact searchHobby_cons_none (matchHobbyAt_three_digits hf hg h1 _)
        | cons k kr =>
          have hk : pyDigit k = true := hfr k (by simp)
          exact searchHobby_cons_none (matchHobbyAt_three_digits hf hg hk _)
    rw [hstep, ih hfr d1 d2 h1 h2 tail]

/-- At the last two digits the pattern matches and captures them. -/
theorem matchHobbyAt_digits_space {d1 d2 : Char} (h1 : pyDigit d1 = true)
    (h2 : pyDigit d2 = true) (rest : List Char) :
    matchHobbyAt (d1 :: d2 :: ' ' :: ("hobbies".data ++ rest)) =
      some (digitVal d1 * 10 + digitVal d2) := by
  have ha1 : eatLit "exactly".data (d1 :: d2 :: ' ' :: ("hobbies".data ++ rest)) = none := by
    rw [show "exactly".data = 'e' :: "xactly".data from rfl]
    simp only [eatLit]
    rw [if_neg (ne_digit_of_gt h1 (by decide))]
  have ha2 : eatLit "has".data (d1 :: d2 :: ' ' :: ("hobbies".data ++ rest)) = none := by
    rw [show "has".data = 'h' :: "as".data from rfl]
    simp only [eatLit]
    rw [if_neg (ne_digit_of_gt h1 (by decide))]
  have ha3 : eatLit "with".data (d1 :: d2 :: ' ' :: ("hobbies".data ++ rest)) = none := by
    rw [show "with".data = 'w' :: "ith".data from rfl]
    simp only [eatLit]
    rw [if_neg (ne_digit_of_gt h1 (by decide))]
  have hafter : matchAfterDigits (' ' :: ("hobbies".data ++ rest)) = true := rfl
  simp only [matchHobbyAt, prefThen, ha1, ha2, ha3, digitsThen, h1, h2, hafter]
  rfl

/-- **C9 (amended)**: when the leftmost occurrence of the hobby pattern in
the summary sits at the end of the long digit run — e.g. the summary
starts with the ≥3-digit number and its keyword — `ExtractHobbyCount`
returns the number formed by the last two digits (23 for "123 hobbies")
rather than absent, because the 1–2 digit pattern is not anchored at a
word boundary; an earlier match elsewhere in the summary wins instead
(see the counterexample). -/
theorem C9_last_two_digits (front : List Char) (d1 d2 : Char) (rest : List Char)
    (emp : Employee)
    (hf : front ≠ []) (hfd : ∀ ch ∈ front, pyDigit ch = true)
    (h1 : pyDigit d1 = true) (h2 : pyDigit d2 = true)
    (hsum : emp.summary = some ⟨front ++ d1 :: d2 :: ' ' :: ("hobbies".data ++ rest)⟩) :
    extract_employee_facts emp = some (digitVal d1 * 10 + digitVal d2) := by
  have _ := hf
  simp only [extract_employee_facts, hsum, Option.getD, pyLower]
  show searchHobby ((front ++ d1 :: d2 :: ' ' :: ("hobbies".data ++ rest)).map pyLowerChar)
    = some (digitVal d1 * 10 + digitVal d2)
  rw [List.map_append, List.map_cons, List.map_cons, List.map_cons, List.map_append]
  rw [map_lower_digits front hfd, lower_digit h1, lower_digit h2,
    show pyLowerChar ' ' = ' ' from by decide,
    show "hobbies".data.map pyLowerChar = "hobbies".data from by decide]
  rw [searchHobby_skips_digit_run front hfd d1 d2 h1 h2 _]
  have hm := matchHobbyAt_digits_space h1 h2 (rest.map pyLowerChar)
  have hfin : searchHobby (d1 :: d2 :: ' ' :: ("hobbies".data ++ rest.map pyLowerChar)) =
      some (digitVal d1 * 10 + digitVal d2) := by
    rw [show searchHobby (d1 :: d2 :: ' ' :: ("hobbies".data ++ rest.map pyLowerChar)) =
        (match matchHobbyAt (d1 :: d2 :: ' ' :: ("hobbies".data ++ rest.map pyLowerChar)) with
         | some v => some v
         | none => searchHobby (d2 :: ' ' :: ("hobbies".data ++ rest.map pyLowerChar)))
      from rfl]
    rw [hm]
  exact hfin

/-- Closed instance of C9 (amended): summary `"123 hobbies"` yields 23. -/
theorem C9_last_two_digits_witness :
    extract_employee_facts ⟨some "E", none, none, none, none, [], [], some "123 hobbies"⟩ =
      some 23 :=
  C9_last_two_digits ['1'] '2' '3' [] _
    (by decide) (by decide) (by decide) (by decide) (by decide)

end Main
